import Mathlib

set_option maxHeartbeats 1000000
set_option maxRecDepth 4000

/-!
Verification development for the tarski `FirstOrderLanguage` symbol table and
sort-hierarchy engine (`src/tarski/fol.py`).

The embedding translates the Python class into a record of its mutable fields
plus one Lean function per method.  Python dicts (which preserve insertion
order) become association lists, Python sets become duplicate-free lists with
membership-guarded insertion, and Python exceptions become `Except` results
paired with the state at the moment the exception is raised (an exception in
Python leaves all mutations performed so far in place).

Pieces imported by `fol.py` from `tarski.syntax` and `tarski.errors` are not
part of the given sources; where one of them decides a claim it is modelled
from the spec and marked `Modelled from the spec:` in its doc comment.
-/

/-- Error kinds of `tarski.errors`.  The error classes themselves are not under
`src/`; the spec (section 7) says callers distinguish kinds, not messages, so
each exception class is one constructor. -/
inductive Err where
  | DuplicateSortDefinition
  | DuplicatePredicateDefinition
  | DuplicateFunctionDefinition
  | DuplicateConstantDefinition
  | UndefinedSort
  | UndefinedPredicate
  | UndefinedFunction
  | UndefinedConstant
  | UndefinedElement
  | LanguageMismatch
  | LanguageError
  | SemanticError
deriving DecidableEq, Repr

/-- Python values passed as constant names / operator operands: the claims only
exercise string literals and integers (floating point is out of scope of a
shallow embedding and of every claim). -/
inductive PyVal where
  | vint (i : Int)
  | vstr (s : String)
deriving DecidableEq, Repr

/-- Cast function of an interval sort.  `fol.py` passes `lambda x: int(x)` for
`Integer`/`Natural` and `lambda x: float(x)` for `Real`, together with the
interval bounds.  Plain sorts (`object`, user sorts) carry no cast. -/
inductive CastKind where
  | noCast
  | intCast (lo hi : Int)
  | floatCast
deriving DecidableEq, Repr

/-- Value of a nonempty digit string, accumulator style. -/
def digitsAux (acc : Nat) : List Char → Option Nat
  | [] => some acc
  | c :: cs => if c.isDigit then digitsAux (10 * acc + (c.toNat - 48)) cs else none

/-- Value of a digit string; the empty string is rejected. -/
def decDigits : List Char → Option Nat
  | [] => none
  | c :: cs => digitsAux 0 (c :: cs)

/-- An optionally signed run of decimal digits, as `int(x)` accepts on a
string (whitespace trimming and underscore separators are not modelled; no
claim uses them). -/
def intOfChars : List Char → Option Int
  | [] => none
  | '-' :: cs => (decDigits cs).map (fun n => -(n : Int))
  | '+' :: cs => (decDigits cs).map (fun n => (n : Int))
  | cs => (decDigits cs).map (fun n => (n : Int))

/-- Interpretation of a Python value as an integer, as `int(x)` does:
integers pass through, strings are parsed as an optionally signed integer
literal (so `int("3") = 3` while `int("3.5")` is rejected). -/
def intLit? (v : PyVal) : Option Int :=
  match v with
  | .vint i => some i
  | .vstr s => intOfChars s.data

/-- Unsigned part of a float literal: digits with an optional point, at least
one digit present. -/
def floatBody (cs : List Char) : Bool :=
  match cs.dropWhile Char.isDigit with
  | [] => !cs.isEmpty
  | '.' :: frac => (!(cs.takeWhile Char.isDigit).isEmpty || !frac.isEmpty) &&
      frac.all Char.isDigit
  | _ => false

/-- Whether `float(x)` accepts the value: integers always do, strings must be a
signed decimal literal with at most one point.  No claim exercises `Real`
casts; this is only here so `constant` is total. -/
def floatLitOk (v : PyVal) : Bool :=
  match v with
  | .vint _ => true
  | .vstr s =>
    match s.data with
    | '-' :: rest => floatBody rest
    | '+' :: rest => floatBody rest
    | rest => floatBody rest

/-- Modelled from the spec: `Interval.cast` lives in `tarski.syntax.sorts`,
which is not under `src/`.  Section 4.2 gives the contract
`cast(value) -> DomainValue | Rejected`, rejecting a literal that cannot be
interpreted as the target representation, with bound checking against the
interval's lower/upper bounds part of the contract; `fol.py` line 190 relies on
a rejected cast being reported as `None` rather than an exception. -/
def castApply (k : CastKind) (v : PyVal) : Option PyVal :=
  match k with
  | .noCast => none
  | .intCast lo hi =>
    match intLit? v with
    | some i => if lo ≤ i ∧ i ≤ hi then some (.vint i) else none
    | none => none
  | .floatCast => if floatLitOk v then some v else none

/-- A `Sort` node: identity within a language is its name (spec section 3); the
back-reference to the owning language is modelled by the language's numeric
identity, used only for the `is`/`LanguageMismatch` checks. -/
structure SortT where
  name : String
  langId : Nat
  builtin : Bool
  castK : CastKind
deriving DecidableEq, Repr

/-- Modelled from the spec: the `Constant` class is not under `src/`; per
section 4.3 a builtin-sort constant is a transient wrapper of the cast value
and the sort, a user-sort constant wraps its name and sort. -/
structure ConstantT where
  symbol : PyVal
  sortName : String
deriving DecidableEq, Repr

structure PredicateT where
  name : String
  langId : Nat
  argSorts : List String
deriving DecidableEq, Repr

structure FunctionT where
  name : String
  langId : Nat
  argSorts : List String
deriving DecidableEq, Repr

structure VariableT where
  name : String
  sort : SortT
deriving DecidableEq, Repr

/-- An operator handler as stored in `_operators`: an arbitrary binary function
on domain values. -/
def Handler : Type := PyVal → PyVal → PyVal

/-- Argument to `_retrieve_object`: either an already-built sort object or a
name (spec section 4.3's name-or-object resolution contract). -/
inductive SortRef where
  | obj (s : SortT)
  | byName (n : String)

/-- Lookup in a Python dict modelled as an association list (first match; keys
are unique by construction). -/
def dlookup {κ α : Type} [DecidableEq κ] (k : κ) : List (κ × α) → Option α
  | [] => none
  | (k', v) :: rest => if k' = k then some v else dlookup k rest

/-- Python dict assignment: replace the value in place if the key is present,
append a new entry otherwise (dicts preserve insertion order). -/
def dinsert {κ α : Type} [DecidableEq κ] (k : κ) (v : α) : List (κ × α) → List (κ × α)
  | [] => [(k, v)]
  | (k', v') :: rest => if k' = k then (k, v) :: rest else (k', v') :: dinsert k v rest

/-- Python set insertion on a duplicate-free list. -/
def sinsert {α : Type} [DecidableEq α] (x : α) (s : List α) : List α :=
  if x ∈ s then s else s ++ [x]

/-- Python `set.update`: insert every element of `add` into `s`. -/
def sunion {α : Type} [DecidableEq α] (s add : List α) : List α :=
  add.foldl (fun acc x => sinsert x acc) s

/-- State of a `FirstOrderLanguage` instance: one field per mutable attribute
set up in `__init__` (`fol.py` lines 19-47).  `id` models Python object
identity of the instance, used by the `is`-based ownership checks. -/
structure FirstOrderLanguage where
  id : Nat
  name : String
  _sorts : List (String × SortT)
  _sort_hierarchy : List (String × String)
  _possible_promotions : List (String × List String)
  _functions : List (String × FunctionT)
  _predicates : List (String × PredicateT)
  _constants : List (PyVal × ConstantT)
  _variables : List VariableT
  _operators : List ((String × SortT × SortT) × Handler)
  language_components_frozen : Bool

namespace FirstOrderLanguage

/-- `has_sort` (`fol.py` line 144). -/
def has_sort (L : FirstOrderLanguage) (n : String) : Bool :=
  (dlookup n L._sorts).isSome

/-- `get_sort` (`fol.py` lines 147-150). -/
def get_sort (L : FirstOrderLanguage) (n : String) : Except Err SortT :=
  match dlookup n L._sorts with
  | some s => .ok s
  | none => .error .UndefinedSort

/-- The promotion set currently recorded for a sort name: what membership in
`_possible_promotions[k]` observes (an absent key reads as the empty set). -/
def promoOf (L : FirstOrderLanguage) (k : String) : List String :=
  (dlookup k L._possible_promotions).getD []

/-- `self._possible_promotions[k]`: `_possible_promotions` is a
`defaultdict(set)` (`fol.py` line 30), so indexing a missing key inserts an
empty set for it and returns that. -/
def promoGet (L : FirstOrderLanguage) (k : String) : List String × FirstOrderLanguage :=
  match dlookup k L._possible_promotions with
  | some v => (v, L)
  | none => ([], { L with _possible_promotions := L._possible_promotions ++ [(k, [])] })

/-- Modelled from the spec: `inclusion_closure` is imported from
`tarski.syntax`, whose source is not under `src/`.  Section 4.1 extends the
child's promotion set by `promotion_set(p)` together with `p` itself for each
parent `p`, and the glossary describes the closure as the sort plus its
transitive ancestors; so the closure of `s` is `s` together with the promotion
set recorded for `s`. -/
def inclusion_closure (L : FirstOrderLanguage) (s : SortT) : List String :=
  s.name :: promoOf L s.name

/-- `set_parent` (`fol.py` lines 156-160): reject a parent owned by a different
language instance, else add the edge to `_sort_hierarchy` and extend
`_possible_promotions[lhs.name]` with the inclusion closure of `rhs`. -/
def set_parent (L : FirstOrderLanguage) (lhs rhs : SortT) :
    Except Err Unit × FirstOrderLanguage :=
  if rhs.langId = L.id then
    let L1 := { L with _sort_hierarchy := sinsert (lhs.name, rhs.name) L._sort_hierarchy }
    let clo := inclusion_closure L1 rhs
    let r := promoGet L1 lhs.name
    (.ok (), { r.2 with
      _possible_promotions := dinsert lhs.name (sunion r.1 clo) r.2._possible_promotions })
  else
    (.error .LanguageError, L)

/-- The `for parent in super_sorts: self.set_parent(sort, parent)` loop of
`sort` (`fol.py` lines 137-138); an exception aborts the loop, keeping the
mutations of the iterations already executed. -/
def setParents (child : SortT) :
    FirstOrderLanguage → List SortT → Except Err Unit × FirstOrderLanguage
  | L, [] => (.ok (), L)
  | L, p :: ps =>
    match set_parent L child p with
    | (.ok _, L') => setParents child L' ps
    | (.error e, L') => (.error e, L')

/-- `sort` (`fol.py` lines 119-142): fail on a duplicate name, else insert the
new sort into `_sorts`, append the `object` sort to the parent list when
absent, and set each parent in turn. -/
def sort (L : FirstOrderLanguage) (name : String) (super_sorts : List SortT) :
    Except Err SortT × FirstOrderLanguage :=
  if L.has_sort name then (.error .DuplicateSortDefinition, L)
  else
    let s : SortT := ⟨name, L.id, false, .noCast⟩
    let L1 := { L with _sorts := dinsert name s L._sorts }
    match dlookup "object" L1._sorts with
    | none => (.error .UndefinedSort, L1)
    | some osort =>
      let supers := if osort ∈ super_sorts then super_sorts else super_sorts ++ [osort]
      match setParents s L1 supers with
      | (.ok _, L2) => (.ok s, L2)
      | (.error e, L2) => (.error e, L2)

/-- `_retrieve_object` specialised to sorts (`fol.py` lines 162-182): an object
is checked for ownership by this instance, a name is looked up in `_sorts`. -/
def retrieveSort (L : FirstOrderLanguage) : SortRef → Except Err SortT
  | .obj s => if s.langId = L.id then .ok s else .error .LanguageMismatch
  | .byName n =>
    match dlookup n L._sorts with
    | some s => .ok s
    | none => .error .UndefinedElement

/-- `variable` (`fol.py` lines 152-154): resolve the sort and return a fresh
`Variable`; nothing is stored. -/
def variableOp (L : FirstOrderLanguage) (n : String) (sref : SortRef) :
    Except Err VariableT × FirstOrderLanguage :=
  match retrieveSort L sref with
  | .ok s => (.ok ⟨n, s⟩, L)
  | .error e => (.error e, L)

/-- `constant` (`fol.py` lines 184-206).  For a builtin sort, cast the name:
success returns a transient constant that is stored nowhere (the spec, section
4.3, has the `Constant` wrap the cast value; the `Constant` class itself is not
under `src/`), failure raises `SemanticError`.  For a user sort, reject a
duplicate name, else store and return the new constant. -/
def constant (L : FirstOrderLanguage) (nameV : PyVal) (sref : SortRef) :
    Except Err ConstantT × FirstOrderLanguage :=
  match retrieveSort L sref with
  | .error e => (.error e, L)
  | .ok s =>
    if s.builtin then
      match castApply s.castK nameV with
      | some actual => (.ok ⟨actual, s.name⟩, L)
      | none => (.error .SemanticError, L)
    else
      match dlookup nameV L._constants with
      | some _ => (.error .DuplicateConstantDefinition, L)
      | none =>
        let c : ConstantT := ⟨nameV, s.name⟩
        (.ok c, { L with _constants := dinsert nameV c L._constants })

/-- `has_constant` (`fol.py` line 208). -/
def has_constant (L : FirstOrderLanguage) (v : PyVal) : Bool :=
  (dlookup v L._constants).isSome

/-- `get_constant` (`fol.py` lines 211-214). -/
def get_constant (L : FirstOrderLanguage) (v : PyVal) : Except Err ConstantT :=
  match dlookup v L._constants with
  | some c => .ok c
  | none => .error .UndefinedConstant

/-- The `[self._retrieve_object(a, Sort) for a in args]` comprehension of
`predicate`/`function`: resolves left to right, raising at the first bad
argument. -/
def resolveSorts (L : FirstOrderLanguage) : List SortRef → Except Err (List SortT)
  | [] => .ok []
  | r :: rs =>
    match retrieveSort L r with
    | .error e => .error e
    | .ok s =>
      match resolveSorts L rs with
      | .error e => .error e
      | .ok ss => .ok (s :: ss)

/-- `predicate` (`fol.py` lines 216-224). -/
def predicate (L : FirstOrderLanguage) (n : String) (args : List SortRef) :
    Except Err PredicateT × FirstOrderLanguage :=
  match dlookup n L._predicates with
  | some _ => (.error .DuplicatePredicateDefinition, L)
  | none =>
    match resolveSorts L args with
    | .error e => (.error e, L)
    | .ok types =>
      let p : PredicateT := ⟨n, L.id, types.map (fun t => t.name)⟩
      (.ok p, { L with _predicates := dinsert n p L._predicates })

/-- `has_predicate` (`fol.py` line 226). -/
def has_predicate (L : FirstOrderLanguage) (n : String) : Bool :=
  (dlookup n L._predicates).isSome

/-- `get_predicate` (`fol.py` lines 229-232). -/
def get_predicate (L : FirstOrderLanguage) (n : String) : Except Err PredicateT :=
  match dlookup n L._predicates with
  | some p => .ok p
  | none => .error .UndefinedPredicate

/-- `function` (`fol.py` lines 234-242). -/
def function (L : FirstOrderLanguage) (n : String) (args : List SortRef) :
    Except Err FunctionT × FirstOrderLanguage :=
  match dlookup n L._functions with
  | some _ => (.error .DuplicateFunctionDefinition, L)
  | none =>
    match resolveSorts L args with
    | .error e => (.error e, L)
    | .ok types =>
      let f : FunctionT := ⟨n, L.id, types.map (fun t => t.name)⟩
      (.ok f, { L with _functions := dinsert n f L._functions })

/-- `has_function` (`fol.py` line 244). -/
def has_function (L : FirstOrderLanguage) (n : String) : Bool :=
  (dlookup n L._functions).isSome

/-- `get_function` (`fol.py` lines 247-250). -/
def get_function (L : FirstOrderLanguage) (n : String) : Except Err FunctionT :=
  match dlookup n L._functions with
  | some f => .ok f
  | none => .error .UndefinedFunction

/-- `is_strict_subtype` (`fol.py` lines 266-267): membership of `st` in
`self._possible_promotions[t._name]` — the `defaultdict` index can insert an
empty entry, so the resulting state is part of the answer. -/
def is_strict_subtype (L : FirstOrderLanguage) (t st : SortT) :
    Bool × FirstOrderLanguage :=
  let r := promoGet L t.name
  (decide (st.name ∈ r.1), r.2)

/-- `is_subtype` (`fol.py` lines 263-264): `t == st or is_strict_subtype`;
Python `or` short-circuits, so the promotions table is only touched when the
sorts differ. -/
def is_subtype (L : FirstOrderLanguage) (t st : SortT) :
    Bool × FirstOrderLanguage :=
  if t = st then (true, L) else L.is_strict_subtype t st

/-- `are_vertically_related` (`fol.py` lines 269-270), again with Python's
short-circuiting `or`. -/
def are_vertically_related (L : FirstOrderLanguage) (t1 t2 : SortT) :
    Bool × FirstOrderLanguage :=
  let r := L.is_subtype t1 t2
  if r.1 then (true, r.2) else r.2.is_subtype t2 t1

/-- `register_operator_handler` (`fol.py` lines 276-277): keyed by the exact
triple, silently overwriting. -/
def register_operator_handler (L : FirstOrderLanguage) (op : String) (t1 t2 : SortT)
    (h : Handler) : FirstOrderLanguage :=
  { L with _operators := dinsert (op, t1, t2) h L._operators }

/-- `dispatch_operator` (`fol.py` lines 279-285): exact lookup of the triple;
a `KeyError` becomes `LanguageError`. -/
def dispatch_operator (L : FirstOrderLanguage) (op : String) (t1 t2 : SortT)
    (lhs rhs : PyVal) : Except Err PyVal × FirstOrderLanguage :=
  match dlookup (op, t1, t2) L._operators with
  | some h => (.ok (h lhs rhs), L)
  | none => (.error .LanguageError, L)

/-- The `sorts` property (`fol.py` lines 58-61) reads
`for s in self.sorts: yield s` — the generator iterates the property itself,
not `self._sorts`, so producing even one element re-enters the property.
`sortsYield L fuel` evaluates the iteration with a recursion budget of `fuel`
nested generator activations; `none` means the budget was exhausted before any
list of elements could be produced (Python's `RecursionError`). -/
def sortsYield (L : FirstOrderLanguage) : Nat → Option (List SortT)
  | 0 => none
  | n + 1 => sortsYield L n

/-- The `predicates` property (`fol.py` lines 63-65): `_predicates.values()`. -/
def predicatesProp (L : FirstOrderLanguage) : List PredicateT :=
  L._predicates.map (fun kv => kv.2)

/-- The `functions` property (`fol.py` lines 67-69): `_functions.values()`. -/
def functionsProp (L : FirstOrderLanguage) : List FunctionT :=
  L._functions.map (fun kv => kv.2)

/-- The `variables` property (`fol.py` lines 49-52): yields the elements of
`_variables`. -/
def variablesProp (L : FirstOrderLanguage) : List VariableT :=
  L._variables

end FirstOrderLanguage

open FirstOrderLanguage

/-- State before `_build_builtin_sorts` runs: every container empty
(`fol.py` lines 19-40). -/
def emptyLang (i : Nat) (nm : String) : FirstOrderLanguage :=
  ⟨i, nm, [], [], [], [], [], [], [], [], false⟩

/-- `_build_the_objects` (`fol.py` lines 107-109). -/
def build_the_objects (L : FirstOrderLanguage) : FirstOrderLanguage :=
  { L with _sorts := dinsert "object" ⟨"object", L.id, false, .noCast⟩ L._sorts }

/-- `_build_the_reals` (`fol.py` lines 77-82): an interval sort with float
bounds and cast (the float bounds are not representable here and no claim
touches them), flagged builtin, parented to `object`. -/
def build_the_reals (L : FirstOrderLanguage) : FirstOrderLanguage :=
  let r : SortT := ⟨"Real", L.id, true, .floatCast⟩
  let L1 := { L with _sorts := dinsert "Real" r L._sorts }
  match dlookup "object" L1._sorts with
  | some o => (set_parent L1 r o).2
  | none => L1

/-- `_build_the_integers` (`fol.py` lines 89-94). -/
def build_the_integers (L : FirstOrderLanguage) : FirstOrderLanguage :=
  let n : SortT := ⟨"Integer", L.id, true, .intCast (-(2 ^ 31 - 1)) (2 ^ 31 - 1)⟩
  let L1 := { L with _sorts := dinsert "Integer" n L._sorts }
  match dlookup "Real" L1._sorts with
  | some o => (set_parent L1 n o).2
  | none => L1

/-- `_build_the_naturals` (`fol.py` lines 100-105). -/
def build_the_naturals (L : FirstOrderLanguage) : FirstOrderLanguage :=
  let n : SortT := ⟨"Natural", L.id, true, .intCast 0 (2 ^ 32 - 1)⟩
  let L1 := { L with _sorts := dinsert "Natural" n L._sorts }
  match dlookup "Integer" L1._sorts with
  | some o => (set_parent L1 n o).2
  | none => L1

/-- The `language` helper / `FirstOrderLanguage.__init__` (`fol.py` lines
10-13 and 19-47): a fresh instance with the four builtin sorts wired up in
construction order.  `i` models the identity of the new Python object. -/
def language (i : Nat) (nm : String) : FirstOrderLanguage :=
  build_the_naturals (build_the_integers (build_the_reals (build_the_objects (emptyLang i nm))))

/-- One call of the public mutation/query surface, for stating invariants over
arbitrary operation sequences. -/
inductive Op where
  | osort (n : String) (supers : List SortT)
  | osetParent (lhs rhs : SortT)
  | opred (n : String) (args : List SortRef)
  | ofn (n : String) (args : List SortRef)
  | oconst (v : PyVal) (s : SortRef)
  | ovar (n : String) (s : SortRef)
  | oreg (op : String) (t1 t2 : SortT) (h : Handler)
  | odisp (op : String) (t1 t2 : SortT) (lhs rhs : PyVal)
  | ostrict (t st : SortT)
  | osub (t st : SortT)
  | overt (t1 t2 : SortT)

/-- The state after one call, whether or not the call raised. -/
def stepOp (L : FirstOrderLanguage) : Op → FirstOrderLanguage
  | .osort n ps => (L.sort n ps).2
  | .osetParent a b => (L.set_parent a b).2
  | .opred n args => (L.predicate n args).2
  | .ofn n args => (L.function n args).2
  | .oconst v s => (L.constant v s).2
  | .ovar n s => (L.variableOp n s).2
  | .oreg op t1 t2 h => L.register_operator_handler op t1 t2 h
  | .odisp op t1 t2 a b => (L.dispatch_operator op t1 t2 a b).2
  | .ostrict t st => (L.is_strict_subtype t st).2
  | .osub t st => (L.is_subtype t st).2
  | .overt a b => (L.are_vertically_related a b).2

def isOkE {α : Type} : Except Err α → Bool
  | .ok _ => true
  | .error _ => false

/-- Whether the call returned normally (did not raise). -/
def opResOk (L : FirstOrderLanguage) : Op → Bool
  | .osort n ps => isOkE (L.sort n ps).1
  | .osetParent a b => isOkE (L.set_parent a b).1
  | .opred n args => isOkE (L.predicate n args).1
  | .ofn n args => isOkE (L.function n args).1
  | .oconst v s => isOkE (L.constant v s).1
  | .ovar n s => isOkE (L.variableOp n s).1
  | .oreg _ _ _ _ => true
  | .odisp op t1 t2 a b => isOkE (L.dispatch_operator op t1 t2 a b).1
  | .ostrict _ _ => true
  | .osub _ _ => true
  | .overt _ _ => true

/-- States reachable from construction by any sequence of calls, raising or
not. -/
inductive Reach : FirstOrderLanguage → Prop where
  | init (i : Nat) (nm : String) : Reach (language i nm)
  | step {L : FirstOrderLanguage} (o : Op) : Reach L → Reach (stepOp L o)

/-- States reachable from construction by calls that all returned normally. -/
inductive GoodReach : FirstOrderLanguage → Prop where
  | init (i : Nat) (nm : String) : GoodReach (language i nm)
  | step {L : FirstOrderLanguage} (o : Op) : GoodReach L → opResOk L o = true →
      GoodReach (stepOp L o)

/-! Helper lemmas about the dict/set models. -/

theorem mem_sinsert_of_mem {α : Type} [DecidableEq α] {x y : α} {s : List α}
    (h : x ∈ s) : x ∈ sinsert y s := by
  unfold sinsert; split
  · exact h
  · exact List.mem_append_left _ h

theorem mem_sinsert_self {α : Type} [DecidableEq α] (y : α) (s : List α) :
    y ∈ sinsert y s := by
  unfold sinsert; split
  · assumption
  · exact List.mem_append_right _ (List.mem_singleton.mpr rfl)

theorem mem_sunion_left {α : Type} [DecidableEq α] {x : α} {s t : List α}
    (h : x ∈ s) : x ∈ sunion s t := by
  induction t generalizing s with
  | nil => exact h
  | cons z ts ih => exact ih (mem_sinsert_of_mem h)

theorem mem_sunion_right {α : Type} [DecidableEq α] {x : α} {s t : List α}
    (h : x ∈ t) : x ∈ sunion s t := by
  induction t generalizing s with
  | nil => cases h
  | cons z ts ih =>
    rcases List.mem_cons.mp h with rfl | hx
    · show x ∈ sunion (sinsert x s) ts
      exact mem_sunion_left (mem_sinsert_self _ _)
    · exact ih hx

theorem dlookup_dinsert_self {κ α : Type} [DecidableEq κ] (k : κ) (v : α)
    (m : List (κ × α)) : dlookup k (dinsert k v m) = some v := by
  induction m with
  | nil => simp [dinsert, dlookup]
  | cons kv rest ih =>
    obtain ⟨k', v'⟩ := kv
    by_cases h : k' = k
    · subst h; simp [dinsert, dlookup]
    · simp [dinsert, dlookup, h, ih]

theorem dlookup_dinsert_ne {κ α : Type} [DecidableEq κ] {q k : κ} (h : q ≠ k) (v : α)
    (m : List (κ × α)) : dlookup q (dinsert k v m) = dlookup q m := by
  induction m with
  | nil =>
    simp [dinsert, dlookup]
    exact fun hh => h hh.symm
  | cons kv rest ih =>
    obtain ⟨k', v'⟩ := kv
    by_cases h1 : k' = k
    · subst h1
      have h2 : k' ≠ q := fun hh => h hh.symm
      simp [dinsert, dlookup, h2]
    · by_cases h2 : k' = q
      · subst h2; simp [dinsert, dlookup, h1]
      · simp [dinsert, dlookup, h1, h2, ih]

theorem dlookup_append_some {κ α : Type} [DecidableEq κ] {q : κ} {m : List (κ × α)} {w : α}
    (h : dlookup q m = some w) (n : List (κ × α)) : dlookup q (m ++ n) = some w := by
  induction m with
  | nil => simp [dlookup] at h
  | cons kv rest ih =>
    obtain ⟨k', v'⟩ := kv
    by_cases hk : k' = q
    · simp [dlookup, hk] at h ⊢; exact h
    · simp [dlookup, hk] at h ⊢; exact ih h

theorem dlookup_append_none {κ α : Type} [DecidableEq κ] {q : κ} {m : List (κ × α)}
    (h : dlookup q m = none) (n : List (κ × α)) : dlookup q (m ++ n) = dlookup q n := by
  induction m with
  | nil => simp
  | cons kv rest ih =>
    obtain ⟨k', v'⟩ := kv
    by_cases hk : k' = q
    · simp [dlookup, hk] at h
    · simp [dlookup, hk] at h ⊢; exact ih h

namespace FirstOrderLanguage

theorem promoGet_fst (L : FirstOrderLanguage) (k : String) :
    (L.promoGet k).1 = L.promoOf k := by
  unfold promoGet promoOf
  cases h : dlookup k L._possible_promotions <;> simp [h]

theorem promoGet_snd_promoOf (L : FirstOrderLanguage) (k q : String) :
    (L.promoGet k).2.promoOf q = L.promoOf q := by
  unfold promoGet
  cases h : dlookup k L._possible_promotions with
  | some v => simp
  | none =>
    simp only
    unfold promoOf
    simp only
    cases hq : dlookup q L._possible_promotions with
    | some w => rw [dlookup_append_some hq]
    | none =>
      rw [dlookup_append_none hq]
      by_cases e : k = q <;> simp [dlookup, e]

theorem promoGet_isSome (L : FirstOrderLanguage) (k : String)
    (h : (dlookup k L._possible_promotions).isSome = true) : (L.promoGet k).2 = L := by
  unfold promoGet
  cases hk : dlookup k L._possible_promotions with
  | some v => simp
  | none => rw [hk] at h; simp at h

theorem promoGet_snd_sorts (L : FirstOrderLanguage) (k : String) :
    (L.promoGet k).2._sorts = L._sorts := by
  unfold promoGet
  cases h : dlookup k L._possible_promotions <;> simp

theorem promoGet_snd_variables (L : FirstOrderLanguage) (k : String) :
    (L.promoGet k).2._variables = L._variables := by
  unfold promoGet
  cases h : dlookup k L._possible_promotions <;> simp

end FirstOrderLanguage

namespace FirstOrderLanguage

theorem set_parent_ok_iff (L : FirstOrderLanguage) (a b : SortT) :
    isOkE (L.set_parent a b).1 = true ↔ b.langId = L.id := by
  unfold set_parent
  by_cases h : b.langId = L.id <;> simp [h, isOkE]

theorem set_parent_err {e : Err} (L : FirstOrderLanguage) (a b : SortT)
    (h : (L.set_parent a b).1 = .error e) : (L.set_parent a b).2 = L := by
  unfold set_parent at h ⊢
  by_cases hb : b.langId = L.id
  · simp [hb] at h
  · simp [hb]

theorem set_parent_mono (L : FirstOrderLanguage) (a b : SortT) {x k : String}
    (h : x ∈ L.promoOf k) : x ∈ (L.set_parent a b).2.promoOf k := by
  unfold set_parent
  by_cases hb : b.langId = L.id
  · rw [if_pos hb]
    dsimp only
    by_cases hk : k = a.name
    · subst hk
      unfold promoOf
      rw [dlookup_dinsert_self]
      apply mem_sunion_left
      rw [promoGet_fst]
      exact h
    · unfold promoOf
      rw [dlookup_dinsert_ne hk]
      have := promoGet_snd_promoOf
        { L with _sort_hierarchy := sinsert (a.name, b.name) L._sort_hierarchy } a.name k
      unfold promoOf at this
      rw [this]
      exact h
  · rw [if_neg hb]
    exact h

theorem set_parent_mem (L : FirstOrderLanguage) (a b : SortT) (hb : b.langId = L.id) :
    b.name ∈ (L.set_parent a b).2.promoOf a.name := by
  unfold set_parent
  rw [if_pos hb]
  dsimp only
  unfold promoOf
  rw [dlookup_dinsert_self]
  simp only [Option.getD_some]
  exact mem_sunion_right (List.mem_cons_self _ _)

theorem set_parent_sorts (L : FirstOrderLanguage) (a b : SortT) :
    (L.set_parent a b).2._sorts = L._sorts := by
  unfold set_parent
  by_cases hb : b.langId = L.id
  · rw [if_pos hb]
    exact promoGet_snd_sorts _ _
  · rw [if_neg hb]

theorem set_parent_variables (L : FirstOrderLanguage) (a b : SortT) :
    (L.set_parent a b).2._variables = L._variables := by
  unfold set_parent
  by_cases hb : b.langId = L.id
  · rw [if_pos hb]
    exact promoGet_snd_variables _ _
  · rw [if_neg hb]

theorem setParents_sorts (c : SortT) (ps : List SortT) :
    ∀ L : FirstOrderLanguage, (setParents c L ps).2._sorts = L._sorts := by
  induction ps with
  | nil => intro L; rfl
  | cons p rest ih =>
    intro L
    unfold setParents
    cases hsp : L.set_parent c p with
    | mk res L' =>
      have hL' : L'._sorts = L._sorts := by
        have := set_parent_sorts L c p
        rw [hsp] at this
        exact this
      cases res with
      | ok u => simpa [hL'] using ih L'
      | error e => simpa using hL'

theorem setParents_variables (c : SortT) (ps : List SortT) :
    ∀ L : FirstOrderLanguage, (setParents c L ps).2._variables = L._variables := by
  induction ps with
  | nil => intro L; rfl
  | cons p rest ih =>
    intro L
    unfold setParents
    cases hsp : L.set_parent c p with
    | mk res L' =>
      have hL' : L'._variables = L._variables := by
        have := set_parent_variables L c p
        rw [hsp] at this
        exact this
      cases res with
      | ok u => simpa [hL'] using ih L'
      | error e => simpa using hL'

theorem setParents_mono (c : SortT) (ps : List SortT) {x k : String} :
    ∀ L : FirstOrderLanguage, x ∈ L.promoOf k → x ∈ (setParents c L ps).2.promoOf k := by
  induction ps with
  | nil => intro L h; exact h
  | cons p rest ih =>
    intro L h
    unfold setParents
    cases hsp : L.set_parent c p with
    | mk res L' =>
      have hx : x ∈ L'.promoOf k := by
        have := set_parent_mono L c p h
        rw [hsp] at this
        exact this
      cases res with
      | ok u => exact ih L' hx
      | error e => simpa using hx

theorem setParents_ok_mem (c : SortT) (ps : List SortT) :
    ∀ L : FirstOrderLanguage, isOkE (setParents c L ps).1 = true →
      ∀ p ∈ ps, p.name ∈ (setParents c L ps).2.promoOf c.name := by
  induction ps with
  | nil => intro L _ p hp; cases hp
  | cons q rest ih =>
    intro L hok p hp
    unfold setParents at hok ⊢
    cases hsp : L.set_parent c q with
    | mk res L' =>
      rw [hsp] at hok
      cases res with
      | error e => simp [isOkE] at hok
      | ok u =>
        simp only
        rcases List.mem_cons.mp hp with rfl | hrest
        · have h1 : p.name ∈ L'.promoOf c.name := by
            have hb : p.langId = L.id := by
              have := (set_parent_ok_iff L c p).mp
              rw [hsp] at this
              exact this rfl
            have := set_parent_mem L c p hb
            rw [hsp] at this
            exact this
          exact setParents_mono c rest L' h1
        · exact ih L' (by simpa using hok) p hrest

end FirstOrderLanguage

/-- Normal form of a freshly constructed language: the four builtin sorts, the
three hierarchy edges and the three promotion sets, in construction order. -/
theorem language_eq (i : Nat) (nm : String) :
    language i nm =
      { id := i, name := nm,
        _sorts := [("object", ⟨"object", i, false, .noCast⟩),
                   ("Real", ⟨"Real", i, true, .floatCast⟩),
                   ("Integer", ⟨"Integer", i, true, .intCast (-(2 ^ 31 - 1)) (2 ^ 31 - 1)⟩),
                   ("Natural", ⟨"Natural", i, true, .intCast 0 (2 ^ 32 - 1)⟩)],
        _sort_hierarchy := [("Real", "object"), ("Integer", "Real"), ("Natural", "Integer")],
        _possible_promotions := [("Real", ["object"]), ("Integer", ["Real", "object"]),
                                 ("Natural", ["Integer", "Real", "object"])],
        _functions := [], _predicates := [], _constants := [], _variables := [],
        _operators := [], language_components_frozen := false } := by
  simp [language, build_the_naturals, build_the_integers, build_the_reals, build_the_objects,
    emptyLang, FirstOrderLanguage.set_parent, FirstOrderLanguage.inclusion_closure,
    FirstOrderLanguage.promoGet, FirstOrderLanguage.promoOf, sunion, sinsert, dinsert, dlookup]

namespace FirstOrderLanguage

theorem sort_dup (L : FirstOrderLanguage) (n : String) (ps : List SortT)
    (h : L.has_sort n = true) : L.sort n ps = (.error .DuplicateSortDefinition, L) := by
  unfold sort
  rw [if_pos h]

theorem sort_variables (L : FirstOrderLanguage) (n : String) (ps : List SortT) :
    (L.sort n ps).2._variables = L._variables := by
  unfold sort
  by_cases h : L.has_sort n
  · rw [if_pos h]
  · rw [if_neg h]
    dsimp only
    cases ho : dlookup "object" (dinsert n ⟨n, L.id, false, .noCast⟩ L._sorts) with
    | none => rfl
    | some osort =>
      simp only
      cases hsp : setParents ⟨n, L.id, false, .noCast⟩
          { L with _sorts := dinsert n ⟨n, L.id, false, .noCast⟩ L._sorts }
          (if osort ∈ ps then ps else ps ++ [osort]) with
      | mk res L2 =>
        have hv := setParents_variables ⟨n, L.id, false, .noCast⟩
          (if osort ∈ ps then ps else ps ++ [osort])
          { L with _sorts := dinsert n ⟨n, L.id, false, .noCast⟩ L._sorts }
        rw [hsp] at hv
        cases res <;> simpa using hv

theorem sort_promo_mono (L : FirstOrderLanguage) (n : String) (ps : List SortT)
    {x k : String} (h : x ∈ L.promoOf k) : x ∈ (L.sort n ps).2.promoOf k := by
  unfold sort
  by_cases hd : L.has_sort n
  · rw [if_pos hd]; exact h
  · rw [if_neg hd]
    dsimp only
    cases ho : dlookup "object" (dinsert n ⟨n, L.id, false, .noCast⟩ L._sorts) with
    | none => exact h
    | some osort =>
      simp only
      cases hsp : setParents ⟨n, L.id, false, .noCast⟩
          { L with _sorts := dinsert n ⟨n, L.id, false, .noCast⟩ L._sorts }
          (if osort ∈ ps then ps else ps ++ [osort]) with
      | mk res L2 =>
        have hv := setParents_mono ⟨n, L.id, false, .noCast⟩
          (if osort ∈ ps then ps else ps ++ [osort])
          { L with _sorts := dinsert n ⟨n, L.id, false, .noCast⟩ L._sorts } h
        rw [hsp] at hv
        cases res <;> simpa using hv

theorem predicate_err {e : Err} (L : FirstOrderLanguage) (n : String) (args : List SortRef)
    (h : (L.predicate n args).1 = .error e) : (L.predicate n args).2 = L := by
  unfold predicate at h ⊢
  cases hd : dlookup n L._predicates with
  | some p => rfl
  | none =>
    cases hr : L.resolveSorts args with
    | error e' => rfl
    | ok types => rw [hd, hr] at h; simp at h

theorem predicate_frame (L : FirstOrderLanguage) (n : String) (args : List SortRef) :
    (L.predicate n args).2._sorts = L._sorts ∧
    (L.predicate n args).2._possible_promotions = L._possible_promotions ∧
    (L.predicate n args).2._variables = L._variables := by
  unfold predicate
  cases hd : dlookup n L._predicates with
  | some p => exact ⟨rfl, rfl, rfl⟩
  | none =>
    cases hr : resolveSorts L args with
    | error e' => exact ⟨rfl, rfl, rfl⟩
    | ok types => exact ⟨rfl, rfl, rfl⟩

theorem function_err {e : Err} (L : FirstOrderLanguage) (n : String) (args : List SortRef)
    (h : (L.function n args).1 = .error e) : (L.function n args).2 = L := by
  unfold function at h ⊢
  cases hd : dlookup n L._functions with
  | some f => rfl
  | none =>
    cases hr : L.resolveSorts args with
    | error e' => rfl
    | ok types => rw [hd, hr] at h; simp at h

theorem function_frame (L : FirstOrderLanguage) (n : String) (args : List SortRef) :
    (L.function n args).2._sorts = L._sorts ∧
    (L.function n args).2._possible_promotions = L._possible_promotions ∧
    (L.function n args).2._variables = L._variables := by
  unfold function
  cases hd : dlookup n L._functions with
  | some f => exact ⟨rfl, rfl, rfl⟩
  | none =>
    cases hr : resolveSorts L args with
    | error e' => exact ⟨rfl, rfl, rfl⟩
    | ok types => exact ⟨rfl, rfl, rfl⟩

theorem constant_err {e : Err} (L : FirstOrderLanguage) (v : PyVal) (sref : SortRef)
    (h : (L.constant v sref).1 = .error e) : (L.constant v sref).2 = L := by
  unfold constant at h ⊢
  cases hr : L.retrieveSort sref with
  | error e' => rfl
  | ok s =>
    dsimp only
    by_cases hb : s.builtin = true
    · rw [if_pos hb]
      cases hc : castApply s.castK v <;> rfl
    · rw [if_neg hb]
      cases hd : dlookup v L._constants with
      | some c => rfl
      | none =>
        rw [hr] at h
        dsimp only at h
        rw [if_neg hb, hd] at h
        simp at h

theorem constant_frame (L : FirstOrderLanguage) (v : PyVal) (sref : SortRef) :
    (L.constant v sref).2._sorts = L._sorts ∧
    (L.constant v sref).2._possible_promotions = L._possible_promotions ∧
    (L.constant v sref).2._variables = L._variables := by
  unfold constant
  cases hr : L.retrieveSort sref with
  | error e' => exact ⟨rfl, rfl, rfl⟩
  | ok s =>
    dsimp only
    by_cases hb : s.builtin = true
    · rw [if_pos hb]
      cases hc : castApply s.castK v with
      | some a => exact ⟨rfl, rfl, rfl⟩
      | none => exact ⟨rfl, rfl, rfl⟩
    · rw [if_neg hb]
      cases hd : dlookup v L._constants with
      | some c => exact ⟨rfl, rfl, rfl⟩
      | none => exact ⟨rfl, rfl, rfl⟩

theorem variableOp_state (L : FirstOrderLanguage) (n : String) (sref : SortRef) :
    (L.variableOp n sref).2 = L := by
  unfold variableOp
  cases hr : retrieveSort L sref <;> rfl

theorem is_strict_subtype_frame (L : FirstOrderLanguage) (t st : SortT) :
    (L.is_strict_subtype t st).2._sorts = L._sorts ∧
    (∀ q, (L.is_strict_subtype t st).2.promoOf q = L.promoOf q) ∧
    (L.is_strict_subtype t st).2._variables = L._variables := by
  unfold is_strict_subtype
  exact ⟨promoGet_snd_sorts _ _, fun q => promoGet_snd_promoOf _ _ q,
    promoGet_snd_variables _ _⟩

theorem is_subtype_frame (L : FirstOrderLanguage) (t st : SortT) :
    (L.is_subtype t st).2._sorts = L._sorts ∧
    (∀ q, (L.is_subtype t st).2.promoOf q = L.promoOf q) ∧
    (L.is_subtype t st).2._variables = L._variables := by
  unfold is_subtype
  by_cases h : t = st
  · rw [if_pos h]; exact ⟨rfl, fun q => rfl, rfl⟩
  · rw [if_neg h]; exact is_strict_subtype_frame L t st

theorem are_vertically_related_frame (L : FirstOrderLanguage) (t1 t2 : SortT) :
    (L.are_vertically_related t1 t2).2._sorts = L._sorts ∧
    (∀ q, (L.are_vertically_related t1 t2).2.promoOf q = L.promoOf q) ∧
    (L.are_vertically_related t1 t2).2._variables = L._variables := by
  unfold are_vertically_related
  obtain ⟨h1, h2, h3⟩ := is_subtype_frame L t1 t2
  by_cases hb : (L.is_subtype t1 t2).1 = true
  · rw [if_pos hb]
    exact ⟨h1, h2, h3⟩
  · rw [if_neg hb]
    obtain ⟨g1, g2, g3⟩ := is_subtype_frame (L.is_subtype t1 t2).2 t2 t1
    exact ⟨g1.trans h1, fun q => (g2 q).trans (h2 q), g3.trans h3⟩

end FirstOrderLanguage

namespace FirstOrderLanguage

theorem dispatch_operator_state (L : FirstOrderLanguage) (op : String) (t1 t2 : SortT)
    (a b : PyVal) : (L.dispatch_operator op t1 t2 a b).2 = L := by
  unfold dispatch_operator
  cases dlookup (op, t1, t2) L._operators <;> rfl

theorem promoOf_congr {L L' : FirstOrderLanguage}
    (h : L'._possible_promotions = L._possible_promotions) (k : String) :
    L'.promoOf k = L.promoOf k := by
  unfold promoOf
  rw [h]

end FirstOrderLanguage

theorem dinsert_keysNamed {m : List (String × SortT)} {n : String} (sN : SortT)
    (hn : sN.name = n) (hm : ∀ q s, dlookup q m = some s → s.name = q) :
    ∀ q s, dlookup q (dinsert n sN m) = some s → s.name = q := by
  intro q s hq
  by_cases e : q = n
  · subst e
    rw [dlookup_dinsert_self] at hq
    cases hq
    exact hn
  · rw [dlookup_dinsert_ne e] at hq
    exact hm q s hq

theorem stepOp_variables (L : FirstOrderLanguage) (o : Op) :
    (stepOp L o)._variables = L._variables := by
  cases o with
  | osort n ps => exact L.sort_variables n ps
  | osetParent a b => exact L.set_parent_variables a b
  | opred n args => exact (L.predicate_frame n args).2.2
  | ofn n args => exact (L.function_frame n args).2.2
  | oconst v s => exact (L.constant_frame v s).2.2
  | ovar n s => rw [stepOp, L.variableOp_state n s]
  | oreg op t1 t2 h => rfl
  | odisp op t1 t2 a b => rw [stepOp, L.dispatch_operator_state op t1 t2 a b]
  | ostrict t st => exact (L.is_strict_subtype_frame t st).2.2
  | osub t st => exact (L.is_subtype_frame t st).2.2
  | overt a b => exact (L.are_vertically_related_frame a b).2.2

theorem stepOp_promo_mono (L : FirstOrderLanguage) (o : Op) {x k : String}
    (h : x ∈ L.promoOf k) : x ∈ (stepOp L o).promoOf k := by
  cases o with
  | osort n ps => exact L.sort_promo_mono n ps h
  | osetParent a b => exact L.set_parent_mono a b h
  | opred n args =>
    rw [stepOp, FirstOrderLanguage.promoOf_congr (L.predicate_frame n args).2.1]
    exact h
  | ofn n args =>
    rw [stepOp, FirstOrderLanguage.promoOf_congr (L.function_frame n args).2.1]
    exact h
  | oconst v s =>
    rw [stepOp, FirstOrderLanguage.promoOf_congr (L.constant_frame v s).2.1]
    exact h
  | ovar n s => rw [stepOp, L.variableOp_state n s]; exact h
  | oreg op t1 t2 hh => exact h
  | odisp op t1 t2 a b => rw [stepOp, L.dispatch_operator_state op t1 t2 a b]; exact h
  | ostrict t st => rw [stepOp, (L.is_strict_subtype_frame t st).2.1]; exact h
  | osub t st => rw [stepOp, (L.is_subtype_frame t st).2.1]; exact h
  | overt a b => rw [stepOp, (L.are_vertically_related_frame a b).2.1]; exact h

theorem stepOp_sorts_nonsort (L : FirstOrderLanguage) (o : Op)
    (ho : ∀ n ps, o ≠ .osort n ps) : (stepOp L o)._sorts = L._sorts := by
  cases o with
  | osort n ps => exact absurd rfl (ho n ps)
  | osetParent a b => exact L.set_parent_sorts a b
  | opred n args => exact (L.predicate_frame n args).1
  | ofn n args => exact (L.function_frame n args).1
  | oconst v s => exact (L.constant_frame v s).1
  | ovar n s => rw [stepOp, L.variableOp_state n s]
  | oreg op t1 t2 h => rfl
  | odisp op t1 t2 a b => rw [stepOp, L.dispatch_operator_state op t1 t2 a b]
  | ostrict t st => exact (L.is_strict_subtype_frame t st).1
  | osub t st => exact (L.is_subtype_frame t st).1
  | overt a b => exact (L.are_vertically_related_frame a b).1

/-- The registry invariant behind claim C8: every entry of `_sorts` is keyed by
its own name, and every registered sort other than `object` has `object` in its
recorded promotion set. -/
def sortObjectInv (L : FirstOrderLanguage) : Prop :=
  (∀ q s, dlookup q L._sorts = some s → s.name = q) ∧
  (∀ q, (dlookup q L._sorts).isSome = true → q ≠ "object" → "object" ∈ L.promoOf q)

theorem goodReach_sortObjectInv : ∀ L : FirstOrderLanguage, GoodReach L → sortObjectInv L := by
  have transport : ∀ {M M' : FirstOrderLanguage}, M'._sorts = M._sorts →
      (∀ q x, x ∈ M.promoOf q → x ∈ M'.promoOf q) → sortObjectInv M → sortObjectInv M' := by
    intro M M' hs hm hI
    exact ⟨fun q s hq => hI.1 q s (hs ▸ hq),
      fun q hq hne => hm q _ (hI.2 q (hs ▸ hq) hne)⟩
  intro L h
  induction h with
  | init i nm =>
    rw [language_eq]
    constructor
    · intro q s hq
      simp only [dlookup] at hq
      split_ifs at hq with h1 h2 h3 h4
      · cases hq; exact h1
      · cases hq; exact h2
      · cases hq; exact h3
      · cases hq; exact h4
    · intro q hq hne
      simp only [dlookup] at hq
      split_ifs at hq with h1 h2 h3 h4
      · exact absurd h1.symm hne
      · subst h2; simp [FirstOrderLanguage.promoOf, dlookup]
      · subst h3; simp [FirstOrderLanguage.promoOf, dlookup]
      · subst h4; simp [FirstOrderLanguage.promoOf, dlookup]
      · simp at hq
  | step o hR hok ih =>
    cases o with
    | osetParent a b =>
      exact transport (stepOp_sorts_nonsort _ _ (fun _ _ hC => Op.noConfusion hC))
        (fun q x hx => stepOp_promo_mono _ _ hx) ih
    | opred n args =>
      exact transport (stepOp_sorts_nonsort _ _ (fun _ _ hC => Op.noConfusion hC))
        (fun q x hx => stepOp_promo_mono _ _ hx) ih
    | ofn n args =>
      exact transport (stepOp_sorts_nonsort _ _ (fun _ _ hC => Op.noConfusion hC))
        (fun q x hx => stepOp_promo_mono _ _ hx) ih
    | oconst v s =>
      exact transport (stepOp_sorts_nonsort _ _ (fun _ _ hC => Op.noConfusion hC))
        (fun q x hx => stepOp_promo_mono _ _ hx) ih
    | ovar n s =>
      exact transport (stepOp_sorts_nonsort _ _ (fun _ _ hC => Op.noConfusion hC))
        (fun q x hx => stepOp_promo_mono _ _ hx) ih
    | oreg op t1 t2 hh =>
      exact transport (stepOp_sorts_nonsort _ _ (fun _ _ hC => Op.noConfusion hC))
        (fun q x hx => stepOp_promo_mono _ _ hx) ih
    | odisp op t1 t2 a b =>
      exact transport (stepOp_sorts_nonsort _ _ (fun _ _ hC => Op.noConfusion hC))
        (fun q x hx => stepOp_promo_mono _ _ hx) ih
    | ostrict t st =>
      exact transport (stepOp_sorts_nonsort _ _ (fun _ _ hC => Op.noConfusion hC))
        (fun q x hx => stepOp_promo_mono _ _ hx) ih
    | osub t st =>
      exact transport (stepOp_sorts_nonsort _ _ (fun _ _ hC => Op.noConfusion hC))
        (fun q x hx => stepOp_promo_mono _ _ hx) ih
    | overt a b =>
      exact transport (stepOp_sorts_nonsort _ _ (fun _ _ hC => Op.noConfusion hC))
        (fun q x hx => stepOp_promo_mono _ _ hx) ih
    | osort n ps =>
      rename_i L
      replace hok : isOkE (L.sort n ps).1 = true := hok
      show sortObjectInv (L.sort n ps).2
      by_cases hd : L.has_sort n = true
      · rw [FirstOrderLanguage.sort_dup L n ps hd] at hok
        simp [isOkE] at hok
      · cases hobj : dlookup "object" (dinsert n ⟨n, L.id, false, .noCast⟩ L._sorts) with
        | none =>
          exfalso
          unfold FirstOrderLanguage.sort at hok
          rw [if_neg hd] at hok
          dsimp only at hok
          rw [hobj] at hok
          simp [isOkE] at hok
        | some oS =>
          have hname : oS.name = "object" :=
            dinsert_keysNamed ⟨n, L.id, false, .noCast⟩ rfl ih.1 "object" oS hobj
          set supers := if oS ∈ ps then ps else ps ++ [oS] with hsupers
          have hmem : oS ∈ supers := by
            rw [hsupers]
            by_cases hc : oS ∈ ps
            · rw [if_pos hc]; exact hc
            · rw [if_neg hc]; exact List.mem_append_right _ (List.mem_singleton.mpr rfl)
          cases hsp : setParents ⟨n, L.id, false, .noCast⟩
              { L with _sorts := dinsert n ⟨n, L.id, false, .noCast⟩ L._sorts } supers with
          | mk res L2 =>
            have hstep : (L.sort n ps).2 = L2 ∧ isOkE (L.sort n ps).1 = isOkE res := by
              unfold FirstOrderLanguage.sort
              rw [if_neg hd]
              dsimp only
              rw [hobj]
              dsimp only
              rw [← hsupers, hsp]
              cases res <;> exact ⟨rfl, rfl⟩
            have hok2 : isOkE res = true := by rw [← hstep.2]; exact hok
            cases res with
            | error e => simp [isOkE] at hok2
            | ok u =>
              rw [hstep.1]
              have hsorts2 : L2._sorts = dinsert n ⟨n, L.id, false, .noCast⟩ L._sorts := by
                have hv := setParents_sorts ⟨n, L.id, false, .noCast⟩ supers
                  { L with _sorts := dinsert n ⟨n, L.id, false, .noCast⟩ L._sorts }
                rw [hsp] at hv
                exact hv
              constructor
              · intro q s hq
                rw [hsorts2] at hq
                exact dinsert_keysNamed ⟨n, L.id, false, .noCast⟩ rfl ih.1 q s hq
              · intro q hq hne
                rw [hsorts2] at hq
                by_cases e : q = n
                · subst e
                  have hokS : isOkE (setParents ⟨q, L.id, false, .noCast⟩
                      { L with _sorts := dinsert q ⟨q, L.id, false, .noCast⟩ L._sorts }
                      supers).1 = true := by
                    rw [hsp]
                    rfl
                  have hm := setParents_ok_mem ⟨q, L.id, false, .noCast⟩ supers
                    { L with _sorts := dinsert q ⟨q, L.id, false, .noCast⟩ L._sorts }
                    hokS oS hmem
                  rw [hsp] at hm
                  rw [hname] at hm
                  exact hm
                · rw [dlookup_dinsert_ne e] at hq
                  have hbase : "object" ∈ FirstOrderLanguage.promoOf
                      { L with _sorts := dinsert n ⟨n, L.id, false, .noCast⟩ L._sorts } q :=
                    ih.2 q hq hne
                  have hm := setParents_mono ⟨n, L.id, false, .noCast⟩ supers
                    { L with _sorts := dinsert n ⟨n, L.id, false, .noCast⟩ L._sorts } hbase
                  rw [hsp] at hm
                  exact hm

theorem reach_variables_nil : ∀ L : FirstOrderLanguage, Reach L → L._variables = [] := by
  intro L h
  induction h with
  | init i nm => rw [language_eq]
  | step o hR ih => rw [stepOp_variables]; exact ih

/-- The pure answer of `is_strict_subtype`, as a function of the two sort
names: membership of `st` in the recorded promotion set of `t`. -/
def strictQ (L : FirstOrderLanguage) (a b : String) : Bool :=
  decide (b ∈ L.promoOf a)

theorem is_strict_subtype_fst (L : FirstOrderLanguage) (t st : SortT) :
    (L.is_strict_subtype t st).1 = strictQ L t.name st.name := by
  show decide (st.name ∈ (L.promoGet t.name).1) = decide (st.name ∈ L.promoOf t.name)
  rw [FirstOrderLanguage.promoGet_fst]

theorem reach_chain : ∀ L : FirstOrderLanguage, Reach L →
    "Integer" ∈ L.promoOf "Natural" ∧ "Real" ∈ L.promoOf "Natural" ∧
    "object" ∈ L.promoOf "Natural" ∧ "Real" ∈ L.promoOf "Integer" ∧
    "object" ∈ L.promoOf "Integer" ∧ "object" ∈ L.promoOf "Real" := by
  intro L h
  induction h with
  | init i nm =>
    rw [language_eq]
    refine ⟨?_, ?_, ?_, ?_, ?_, ?_⟩ <;> simp [FirstOrderLanguage.promoOf, dlookup]
  | step o hR ih =>
    obtain ⟨a1, a2, a3, a4, a5, a6⟩ := ih
    exact ⟨stepOp_promo_mono _ _ a1, stepOp_promo_mono _ _ a2, stepOp_promo_mono _ _ a3,
      stepOp_promo_mono _ _ a4, stepOp_promo_mono _ _ a5, stepOp_promo_mono _ _ a6⟩

namespace FirstOrderLanguage

theorem constant_builtin_ok (L : FirstOrderLanguage) (sref : SortRef) (s : SortT)
    (hr : L.retrieveSort sref = .ok s) (hb : s.builtin = true) (v a : PyVal)
    (hc : castApply s.castK v = some a) :
    L.constant v sref = (.ok ⟨a, s.name⟩, L) := by
  unfold constant
  rw [hr]
  dsimp only
  rw [if_pos hb, hc]

theorem constant_builtin_reject (L : FirstOrderLanguage) (sref : SortRef) (s : SortT)
    (hr : L.retrieveSort sref = .ok s) (hb : s.builtin = true) (v : PyVal)
    (hc : castApply s.castK v = none) :
    L.constant v sref = (.error .SemanticError, L) := by
  unfold constant
  rw [hr]
  dsimp only
  rw [if_pos hb, hc]

end FirstOrderLanguage

/-! Concrete scenario states used by the claim theorems. -/

/-- The `object` sort record of the language with identity 0. -/
def objA : SortT := ⟨"object", 0, false, .noCast⟩

def realA : SortT := ⟨"Real", 0, true, .floatCast⟩

def intA : SortT := ⟨"Integer", 0, true, .intCast (-(2 ^ 31 - 1)) (2 ^ 31 - 1)⟩

def natA : SortT := ⟨"Natural", 0, true, .intCast 0 (2 ^ 32 - 1)⟩

/-- Staleness scenario for C3: `a`, then `b` below `a`, then `c`, then a late
edge `a ⊑ c` added while `b` is already a child of `a`. -/
def staleL1 : FirstOrderLanguage := ((language 0 "L").sort "a" []).2

def staleL2 : FirstOrderLanguage := (staleL1.sort "b" [⟨"a", 0, false, .noCast⟩]).2

def staleL3 : FirstOrderLanguage := (staleL2.sort "c" []).2

def staleL4 : FirstOrderLanguage :=
  (staleL3.set_parent ⟨"a", 0, false, .noCast⟩ ⟨"c", 0, false, .noCast⟩).2

/-- The state after `set_parent(Object, Natural)` on a fresh language: the
call the cycle claim is about. -/
def cyclePost : FirstOrderLanguage := ((language 0 "L").set_parent objA natA).2

/-- An integer-addition handler, as in the spec's dispatch example. -/
def addH : Handler := fun a b =>
  match a, b with
  | .vint x, .vint y => .vint (x + y)
  | _, _ => .vint 0

/-- A fresh language with `+` registered on (Integer, Integer). -/
def opLang1 : FirstOrderLanguage :=
  (language 0 "L").register_operator_handler "+" intA intA addH

/-- `opLang1` with `+` additionally registered on (Real, Real) — but not on
(Integer, Real). -/
def opLang2 : FirstOrderLanguage :=
  opLang1.register_operator_handler "+" realA realA addH

/-! Claim theorems. -/

/-- C1, counterexample: the claim says every failed registration leaves the
state unchanged, but `sort` inserts the new sort into `_sorts` before setting
parents, so a `sort` call that fails the parent language check (parent owned by
a different instance) raises `LanguageError` with the new sort already
registered. -/
theorem c1_counterexample :
    dlookup "object" (language 2 "M")._sorts = some ⟨"object", 2, false, .noCast⟩ ∧
    ((language 1 "L").sort "a" [⟨"object", 2, false, .noCast⟩]).1 = .error .LanguageError ∧
    ((language 1 "L").sort "a" [⟨"object", 2, false, .noCast⟩]).2._sorts ≠
      (language 1 "L")._sorts := by
  refine ⟨rfl, rfl, ?_⟩
  decide

/-- C1, amended: registration failures are atomic for the duplicate-name checks
of `sort` and for every failure of `set_parent`, `predicate`, `function`,
`constant` and `variable`; only a `sort` call that fails while wiring parents
(foreign parent) is non-atomic, having already inserted the sort. -/
theorem c1_amended :
    (∀ (L : FirstOrderLanguage) (n : String) (ps : List SortT),
      L.has_sort n = true → L.sort n ps = (.error .DuplicateSortDefinition, L)) ∧
    (∀ (L : FirstOrderLanguage) (a b : SortT) (e : Err),
      (L.set_parent a b).1 = .error e → (L.set_parent a b).2 = L) ∧
    (∀ (L : FirstOrderLanguage) (n : String) (args : List SortRef) (e : Err),
      (L.predicate n args).1 = .error e → (L.predicate n args).2 = L) ∧
    (∀ (L : FirstOrderLanguage) (n : String) (args : List SortRef) (e : Err),
      (L.function n args).1 = .error e → (L.function n args).2 = L) ∧
    (∀ (L : FirstOrderLanguage) (v : PyVal) (s : SortRef) (e : Err),
      (L.constant v s).1 = .error e → (L.constant v s).2 = L) ∧
    (∀ (L : FirstOrderLanguage) (n : String) (s : SortRef),
      (L.variableOp n s).2 = L) :=
  ⟨FirstOrderLanguage.sort_dup,
   fun L a b _ h => FirstOrderLanguage.set_parent_err L a b h,
   fun L n args _ h => FirstOrderLanguage.predicate_err L n args h,
   fun L n args _ h => FirstOrderLanguage.function_err L n args h,
   fun L v s _ h => FirstOrderLanguage.constant_err L v s h,
   fun L n s => FirstOrderLanguage.variableOp_state L n s⟩

theorem c1_amended_witness :
    (language 0 "L").sort "object" [] = (.error .DuplicateSortDefinition, language 0 "L") ∧
    ((language 0 "L").predicate "p" [.byName "nosuch"]).2 = language 0 "L" ∧
    ((language 0 "L").constant (.vstr "k") (.byName "nosuch")).2 = language 0 "L" :=
  ⟨c1_amended.1 (language 0 "L") "object" [] (by decide),
   c1_amended.2.2.1 (language 0 "L") "p" [.byName "nosuch"] .UndefinedElement rfl,
   c1_amended.2.2.2.2.1 (language 0 "L") (.vstr "k") (.byName "nosuch") .UndefinedElement rfl⟩

/-- C2: `constant("3", Integer)` returns a transient constant wrapping the cast
value 3 with nothing stored (the state is returned unchanged, so the constant
namespace stays as it was); and for every string the integer cast rejects,
`constant` on `Integer` or `Natural` fails `SemanticError`, again with the
state unchanged. -/
theorem c2_integer_constant :
    ((language 0 "L").constant (.vstr "3") (.byName "Integer") =
      (.ok ⟨.vint 3, "Integer"⟩, language 0 "L")) ∧
    (∀ s : String, intOfChars s.data = none →
      (language 0 "L").constant (.vstr s) (.byName "Integer") =
        (.error .SemanticError, language 0 "L") ∧
      (language 0 "L").constant (.vstr s) (.byName "Natural") =
        (.error .SemanticError, language 0 "L")) := by
  refine ⟨rfl, fun s hs => ⟨?_, ?_⟩⟩
  · exact FirstOrderLanguage.constant_builtin_reject (language 0 "L") (.byName "Integer")
      intA rfl rfl (.vstr s) (by simp [castApply, intLit?, hs, intA])
  · exact FirstOrderLanguage.constant_builtin_reject (language 0 "L") (.byName "Natural")
      natA rfl rfl (.vstr s) (by simp [castApply, intLit?, hs, natA])

theorem c2_integer_constant_witness :
    intOfChars "3.5".data = none ∧
    (language 0 "L").constant (.vstr "3.5") (.byName "Integer") =
      (.error .SemanticError, language 0 "L") ∧
    (language 0 "L").constant (.vstr "3.5") (.byName "Natural") =
      (.error .SemanticError, language 0 "L") :=
  ⟨by decide, (c2_integer_constant.2 "3.5" (by decide)).1,
    (c2_integer_constant.2 "3.5" (by decide)).2⟩

/-- C3, counterexample: the claim says promotion sets always equal edge
reachability; but after registering `b` below `a` and then adding the late edge
`a ⊑ c`, the edges `b → a → c` exist while `is_strict_subtype(b, c)` is still
false — `set_parent` updates only the lhs's promotion set, never the sets of
existing children. -/
theorem c3_counterexample :
    ("b", "a") ∈ staleL4._sort_hierarchy ∧ ("a", "c") ∈ staleL4._sort_hierarchy ∧
    (staleL4.is_strict_subtype ⟨"b", 0, false, .noCast⟩ ⟨"c", 0, false, .noCast⟩).1 =
      false ∧
    (staleL4.is_strict_subtype ⟨"a", 0, false, .noCast⟩ ⟨"c", 0, false, .noCast⟩).1 =
      true := by
  refine ⟨by decide, by decide, by decide, by decide⟩

/-- C3, amended: a successful `set_parent(lhs, rhs)` extends exactly the lhs's
promotion set, with `rhs` and rhs's promotion set as recorded at call time;
promotion sets of all other sorts (in particular lhs's existing children) are
untouched, so answers can be stale relative to edge reachability. -/
theorem c3_amended :
    ∀ (L : FirstOrderLanguage) (lhs rhs : SortT), rhs.langId = L.id →
      (L.set_parent lhs rhs).1 = .ok () ∧
      dlookup lhs.name (L.set_parent lhs rhs).2._possible_promotions =
        some (sunion (L.promoOf lhs.name) (rhs.name :: L.promoOf rhs.name)) ∧
      (∀ k, k ≠ lhs.name → (L.set_parent lhs rhs).2.promoOf k = L.promoOf k) := by
  intro L lhs rhs hb
  unfold FirstOrderLanguage.set_parent
  rw [if_pos hb]
  dsimp only
  refine ⟨rfl, ?_, ?_⟩
  · rw [dlookup_dinsert_self, FirstOrderLanguage.promoGet_fst]
    rfl
  · intro k hk
    unfold FirstOrderLanguage.promoOf
    dsimp only
    rw [dlookup_dinsert_ne hk]
    have h2 := FirstOrderLanguage.promoGet_snd_promoOf
      { L with _sort_hierarchy := sinsert (lhs.name, rhs.name) L._sort_hierarchy } lhs.name k
    unfold FirstOrderLanguage.promoOf at h2
    exact h2

theorem c3_amended_witness :
    ((language 0 "L").set_parent natA realA).1 = .ok () ∧
    ((language 0 "L").set_parent natA realA).2.promoOf "Integer" =
      (language 0 "L").promoOf "Integer" :=
  ⟨(c3_amended (language 0 "L") natA realA rfl).1,
   (c3_amended (language 0 "L") natA realA rfl).2.2 "Integer" (by decide)⟩

/-- C4: the code performs no cycle check at all — `set_parent(Object, Natural)`
on a fresh language returns normally (no `LanguageError`) and afterwards the
edge set contains the cycle object → Natural → Integer → Real → object, so the
hierarchy is not kept acyclic as the claim requires. -/
theorem c4_cycle_not_rejected :
    dlookup "object" (language 0 "L")._sorts = some objA ∧
    dlookup "Natural" (language 0 "L")._sorts = some natA ∧
    ((language 0 "L").set_parent objA natA).1 = .ok () ∧
    ("object", "Natural") ∈ cyclePost._sort_hierarchy ∧
    ("Natural", "Integer") ∈ cyclePost._sort_hierarchy ∧
    ("Integer", "Real") ∈ cyclePost._sort_hierarchy ∧
    ("Real", "object") ∈ cyclePost._sort_hierarchy := by
  refine ⟨rfl, rfl, rfl, by decide, by decide, by decide, by decide⟩

/-- C5, counterexample: `is_strict_subtype` indexes the `defaultdict`
`_possible_promotions`, so querying `is_strict_subtype(Object, Natural)` on a
fresh language (whose promotions table has no `object` key) inserts an empty
entry for `object` — the promotions table changes, so the query is not a pure
read. -/
theorem c5_counterexample :
    ((language 0 "L").is_strict_subtype objA natA).2._possible_promotions ≠
      (language 0 "L")._possible_promotions := by
  decide

/-- C5, amended: queries never change query answers, and `is_strict_subtype`
(and through it `is_subtype` and `are_vertically_related`) leaves the state
fully unchanged whenever the queried sort's name is already a key of the
promotions table; when absent, the only state change is the `defaultdict`
appending an empty promotion entry for that name, which leaves every recorded
promotion set (and hence all subtype answers) unchanged. -/
theorem c5_amended :
    ∀ (L : FirstOrderLanguage) (t st : SortT),
      ((dlookup t.name L._possible_promotions).isSome = true →
        (L.is_strict_subtype t st).2 = L) ∧
      ((L.is_strict_subtype t st).2 = L ∨
        (L.is_strict_subtype t st).2 =
          { L with _possible_promotions := L._possible_promotions ++ [(t.name, [])] }) ∧
      (∀ q, (L.is_strict_subtype t st).2.promoOf q = L.promoOf q) ∧
      (∀ q, (L.is_subtype t st).2.promoOf q = L.promoOf q) ∧
      (∀ q, (L.are_vertically_related t st).2.promoOf q = L.promoOf q) := by
  intro L t st
  refine ⟨?_, ?_, (L.is_strict_subtype_frame t st).2.1, (L.is_subtype_frame t st).2.1,
    (L.are_vertically_related_frame t st).2.1⟩
  · intro h
    exact FirstOrderLanguage.promoGet_isSome L t.name h
  · have hsw : (L.is_strict_subtype t st).2 = (L.promoGet t.name).2 := rfl
    rw [hsw]
    unfold FirstOrderLanguage.promoGet
    cases h : dlookup t.name L._possible_promotions with
    | some v => left; rfl
    | none => right; rfl

theorem c5_amended_witness :
    ((language 0 "L").is_strict_subtype natA intA).2 = language 0 "L" :=
  (c5_amended (language 0 "L") natA intA).1 (by decide)

/-- C6: the `sorts` property iterates `self.sorts` — itself — instead of
`self._sorts`, so iterating it never produces the registered sorts: for every
recursion budget the evaluation exhausts the budget (Python: `RecursionError`)
and yields nothing. -/
theorem c6_sorts_property_diverges :
    ∀ (L : FirstOrderLanguage) (fuel : Nat), L.sortsYield fuel = none := by
  intro L fuel
  induction fuel with
  | zero => rfl
  | succ n ih => exact ih

/-- C7: `dispatch_operator` applies exactly the handler registered for the
triple `(op, t1, t2)` and returns its result; when no handler is registered for
that exact triple it fails `LanguageError` — there is no fallback through the
sort hierarchy, since the lookup is a plain dict lookup on the triple. -/
theorem c7_dispatch_exact :
    (∀ (L : FirstOrderLanguage) (op : String) (t1 t2 : SortT) (h : Handler) (a b : PyVal),
      (L.register_operator_handler op t1 t2 h).dispatch_operator op t1 t2 a b =
        (.ok (h a b), L.register_operator_handler op t1 t2 h)) ∧
    (∀ (L : FirstOrderLanguage) (op : String) (t1 t2 : SortT) (a b : PyVal),
      dlookup (op, t1, t2) L._operators = none →
      L.dispatch_operator op t1 t2 a b = (.error .LanguageError, L)) := by
  constructor
  · intro L op t1 t2 h a b
    unfold FirstOrderLanguage.dispatch_operator FirstOrderLanguage.register_operator_handler
    rw [dlookup_dinsert_self]
  · intro L op t1 t2 a b hnone
    unfold FirstOrderLanguage.dispatch_operator
    rw [hnone]

theorem c7_dispatch_exact_witness :
    opLang1.dispatch_operator "+" intA intA (.vint 2) (.vint 3) =
      (.ok (.vint 5), opLang1) ∧
    opLang2.dispatch_operator "+" intA realA (.vint 2) (.vstr "3.0") =
      (.error .LanguageError, opLang2) :=
  ⟨c7_dispatch_exact.1 (language 0 "L") "+" intA intA addH (.vint 2) (.vint 3),
   c7_dispatch_exact.2 opLang2 "+" intA realA (.vint 2) (.vstr "3.0") rfl⟩

/-- C8, counterexample: a `sort` call with a foreign parent fails after
inserting the sort but before wiring `object`, leaving a registered sort whose
promotion set does not contain `object` — so "every non-root sort's promotion
set contains Object" does not hold of every registered sort. -/
theorem c8_counterexample :
    ((language 3 "L").sort "blk" [⟨"object", 4, false, .noCast⟩]).1 =
      .error .LanguageError ∧
    ((language 3 "L").sort "blk" [⟨"object", 4, false, .noCast⟩]).2.has_sort "blk" =
      true ∧
    "object" ∉
      ((language 3 "L").sort "blk" [⟨"object", 4, false, .noCast⟩]).2.promoOf "blk" := by
  refine ⟨rfl, by decide, by decide⟩

/-- C8, amended: in every state reachable from construction by operations that
all returned normally, every registered sort other than `object` has `object`
in its promotion set, and `is_subtype(s, Object)` answers true for every such
sort — in particular for sorts registered with no explicit parents, for which
`object` was implicitly appended as a parent. -/
theorem c8_amended :
    ∀ L : FirstOrderLanguage, GoodReach L →
      (∀ n s, dlookup n L._sorts = some s → n ≠ "object" → "object" ∈ L.promoOf n) ∧
      (∀ t st : SortT, (dlookup t.name L._sorts).isSome = true → t.name ≠ "object" →
        st.name = "object" → (L.is_subtype t st).1 = true) := by
  intro L h
  have hI := goodReach_sortObjectInv L h
  constructor
  · intro n s hn hne
    exact hI.2 n (by rw [hn]; rfl) hne
  · intro t st hts hne hst
    unfold FirstOrderLanguage.is_subtype
    by_cases he : t = st
    · rw [if_pos he]
    · rw [if_neg he]
      rw [is_strict_subtype_fst]
      unfold strictQ
      rw [hst]
      exact decide_eq_true (hI.2 t.name hts hne)

theorem c8_amended_witness :
    "object" ∈ (stepOp (language 0 "L") (.osort "block" [])).promoOf "block" :=
  (c8_amended (stepOp (language 0 "L") (.osort "block" []))
    (GoodReach.step (Op.osort "block" []) (GoodReach.init 0 "L") rfl)).1
    "block" ⟨"block", 0, false, .noCast⟩ (by decide) (by decide)

/-- C9, counterexample: the claim says no subsequent operation can alter the
builtin chain, but a direct `set_parent(Object, Natural)` call succeeds and
makes `is_strict_subtype(Object, Natural)` true afterwards. -/
theorem c9_counterexample :
    (cyclePost.is_strict_subtype objA natA).1 = true := by
  decide

/-- C9, amended: all six strict-subtype pairs among Natural ⊏ Integer ⊏ Real ⊏
object hold from construction onward in every reachable state (no operation can
remove them, promotion sets only grow); `is_strict_subtype(Object, Natural)` is
false at construction and stays false under the registration/query surface —
but it can be flipped by a direct `set_parent` call with `Object` as the child,
so only the positive half of the chain is truly unalterable. -/
theorem c9_amended :
    (∀ L : FirstOrderLanguage, Reach L →
      strictQ L "Natural" "Integer" = true ∧ strictQ L "Natural" "Real" = true ∧
      strictQ L "Natural" "object" = true ∧ strictQ L "Integer" "Real" = true ∧
      strictQ L "Integer" "object" = true ∧ strictQ L "Real" "object" = true) ∧
    strictQ (language 0 "L") "object" "Natural" = false ∧
    (∀ (L : FirstOrderLanguage) (t st : SortT),
      (L.is_strict_subtype t st).1 = strictQ L t.name st.name) := by
  refine ⟨?_, by decide, is_strict_subtype_fst⟩
  intro L h
  obtain ⟨a1, a2, a3, a4, a5, a6⟩ := reach_chain L h
  exact ⟨decide_eq_true a1, decide_eq_true a2, decide_eq_true a3,
    decide_eq_true a4, decide_eq_true a5, decide_eq_true a6⟩

theorem c9_amended_witness :
    strictQ (stepOp (language 5 "K") (.osort "w" [])) "Natural" "Integer" = true ∧
    strictQ (stepOp (language 5 "K") (.osort "w" [])) "Real" "object" = true :=
  ⟨(c9_amended.1 (stepOp (language 5 "K") (.osort "w" []))
      (Reach.step (Op.osort "w" []) (Reach.init 5 "K"))).1,
   (c9_amended.1 (stepOp (language 5 "K") (.osort "w" []))
      (Reach.step (Op.osort "w" []) (Reach.init 5 "K"))).2.2.2.2.2⟩

/-- C10: no operation ever adds to `_variables` (nothing in `fol.py` does), so
in every reachable state iterating the `variables` property yields the empty
sequence; `variable(name, sort)` resolves the sort, returns a fresh `Variable`
and leaves the entire state unchanged. -/
theorem c10_variables_never_stored :
    (∀ L : FirstOrderLanguage, Reach L → L.variablesProp = []) ∧
    (∀ (L : FirstOrderLanguage) (o : Op), (stepOp L o)._variables = L._variables) ∧
    (∀ (L : FirstOrderLanguage) (n : String) (sref : SortRef),
      (L.variableOp n sref).2 = L) ∧
    (∀ (L : FirstOrderLanguage) (n : String) (s : SortT), s.langId = L.id →
      L.variableOp n (.obj s) = (.ok ⟨n, s⟩, L)) := by
  refine ⟨?_, stepOp_variables, FirstOrderLanguage.variableOp_state, ?_⟩
  · intro L h
    exact reach_variables_nil L h
  · intro L n s hs
    unfold FirstOrderLanguage.variableOp FirstOrderLanguage.retrieveSort
    dsimp only
    rw [if_pos hs]

theorem c10_variables_never_stored_witness :
    (language 0 "L").variablesProp = [] ∧
    (language 0 "L").variableOp "x" (.obj natA) =
      (.ok ⟨"x", natA⟩, language 0 "L") :=
  ⟨c10_variables_never_stored.1 (language 0 "L") (Reach.init 0 "L"),
   c10_variables_never_stored.2.2.2 (language 0 "L") "x" natA rfl⟩
